import Mathlib

/-!
Verification of the fsp-observer core against its specification.

The development shallowly embeds the two source modules
`configuration/types.py` and `observer/types.py`:

* pure Python functions become Lean functions over `Nat`, `List Nat`
  (byte sequences, each element < 256), `String` and `List Char`;
* Python exceptions (`OverflowError` from `int.to_bytes`, `ValueError`
  from `bytes.fromhex`, `KeyError` from dict lookup) become `Except`
  and `Option` results;
* the chain's 256-bit hash (`Web3.keccak` / `eth_utils.crypto.keccak`)
  is embedded as a concrete executable Keccak-256 over byte lists, so
  that every derived signature, checksum and digest is computable;
* `hexbytes.HexBytes.hex()` is embedded as the `"0x"`-prefixed hex
  rendering it actually produces, while `bytes.hex()` on plain Python
  bytes is the unprefixed rendering.

All definitions are translated from the source; the few definitions that
instead follow the specification's words are marked as such in their
doc comments.
-/

/-! ## Bytes, hex renderings, Keccak-256 -/

/-- Left-rotate a 64-bit lane (value < 2^64) by `n < 64` bits. -/
def rotl64 (x n : Nat) : Nat :=
  ((x <<< n) ||| (x >>> (64 - n))) % 2 ^ 64

/-- One step of the byte-wide GF(2) LFSR of the Keccak reference
(polynomial x^8 + x^6 + x^5 + x^4 + 1). -/
def lfsrStep (r : Nat) : Nat :=
  if r &&& 0x80 = 0 then (r <<< 1) % 256 else ((r <<< 1) ^^^ 0x71) % 256

/-- The low bits of `n` consecutive LFSR states starting from `r`. -/
def lfsrBits : Nat → Nat → List Nat
  | 0, _ => []
  | n + 1, r => (r &&& 1) :: lfsrBits n (lfsrStep r)

/-- The 24 Keccak-f[1600] round constants: round `i` places the seven LFSR
output bits `7 i .. 7 i + 6` at bit positions `2 ^ j - 1` of its lane. -/
def keccakRC : List Nat :=
  let bits := lfsrBits 168 1
  (List.range 24).map fun i =>
    (List.range 7).foldl (fun acc j => acc ^^^ (bits.getD (7 * i + j) 0 <<< (2 ^ j - 1))) 0

/-- The ρ offset walk of the Keccak reference: starting from lane `(1, 0)`,
step `t` assigns rotation `(t + 1) (t + 2) / 2 mod 64` to the current lane
and moves to `(y, (2 x + 3 y) mod 5)`. -/
def rhoWalk : Nat → Nat → Nat → Nat → List (Nat × Nat)
  | 0, _, _, _ => []
  | fuel + 1, t, x, y =>
    (x + 5 * y, (t + 1) * (t + 2) / 2 % 64) :: rhoWalk fuel (t + 1) y ((2 * x + 3 * y) % 5)

/-- The ρ rotation offset of lane `x + 5 * y`; lane 0 stays unrotated. -/
def rhoOffset (i : Nat) : Nat :=
  ((rhoWalk 24 0 1 0).lookup i).getD 0

/-- Lane `(x, y)` of a 25-lane state, coordinates taken mod 5. -/
def lane (s : List Nat) (x y : Nat) : Nat :=
  s.getD (x % 5 + 5 * (y % 5)) 0

/-- Keccak θ step. -/
def keccakTheta (s : List Nat) : List Nat :=
  let c := fun x => lane s x 0 ^^^ lane s x 1 ^^^ lane s x 2 ^^^ lane s x 3 ^^^ lane s x 4
  let d := fun x => c ((x + 4) % 5) ^^^ rotl64 (c ((x + 1) % 5)) 1
  (List.range 25).map fun i => s.getD i 0 ^^^ d (i % 5)

/-- Keccak ρ and π steps combined: the target lane `(x2, y2)` receives the
rotated source lane `(x, y)` with `y = x2` and `x = 3 * (y2 + 2 * y) mod 5`. -/
def keccakRhoPi (s : List Nat) : List Nat :=
  (List.range 25).map fun j =>
    let y := j % 5
    let x := (3 * (j / 5 + 2 * y)) % 5
    rotl64 (lane s x y) (rhoOffset (x + 5 * y))

/-- Keccak χ step; lane complement is xor with the all-ones 64-bit mask. -/
def keccakChi (s : List Nat) : List Nat :=
  (List.range 25).map fun j =>
    let x := j % 5
    let y := j / 5
    lane s x y ^^^ ((lane s (x + 1) y ^^^ (2 ^ 64 - 1)) &&& lane s (x + 2) y)

/-- One Keccak-f round: θ, ρ, π, χ, then ι (xor the round constant into lane 0). -/
def keccakRound (s : List Nat) (rc : Nat) : List Nat :=
  let t := keccakChi (keccakRhoPi (keccakTheta s))
  (rc ^^^ t.getD 0 0) :: t.drop 1

/-- The full 24-round Keccak-f[1600] permutation. -/
def keccakF (s : List Nat) : List Nat :=
  keccakRC.foldl keccakRound s

/-- Interpret up to 8 bytes as a little-endian 64-bit lane. -/
def bytesToLane (bs : List Nat) : Nat :=
  bs.foldr (fun b acc => acc * 256 + b) 0

/-- Render a 64-bit lane as 8 little-endian bytes. -/
def laneToBytes (v : Nat) : List Nat :=
  (List.range 8).map fun i => (v >>> (8 * i)) % 256

/-- Absorb one 136-byte block into the state and permute. -/
def keccakAbsorbBlock (s : List Nat) (block : List Nat) : List Nat :=
  keccakF ((List.range 25).map fun i =>
    s.getD i 0 ^^^ (if i < 17 then bytesToLane ((block.drop (8 * i)).take 8) else 0))

/-- Absorb `n` consecutive 136-byte blocks of `msg`. -/
def keccakAbsorb : Nat → List Nat → List Nat → List Nat
  | 0, s, _ => s
  | n + 1, s, msg => keccakAbsorb n (keccakAbsorbBlock s (msg.take 136)) (msg.drop 136)

/-- Keccak multi-rate padding (domain byte 0x01, final bit 0x80) to a
multiple of the 136-byte rate. -/
def keccakPad (msg : List Nat) : List Nat :=
  let p := 136 - msg.length % 136
  if p = 1 then msg ++ [0x81]
  else msg ++ 0x01 :: List.replicate (p - 2) 0 ++ [0x80]

/-- Keccak-256 of a byte sequence (the hash behind `Web3.keccak` and
`eth_utils.crypto.keccak`); validated against the standard test vectors,
e.g. the empty input hashes to c5d246...85d85a470. -/
def keccak256 (msg : List Nat) : List Nat :=
  let padded := keccakPad msg
  let s := keccakAbsorb (padded.length / 136) (List.replicate 25 0) padded
  ((List.range 4).map fun i => laneToBytes (s.getD i 0)).flatten

/-- Lowercase hex digit for a nibble. -/
def hexDigitChar (n : Nat) : Char :=
  if n < 10 then Char.ofNat (48 + n) else Char.ofNat (87 + n)

/-- Two lowercase hex digits per byte, as characters. -/
def bytesToHexChars (bs : List Nat) : List Char :=
  bs.foldr (fun b acc => hexDigitChar (b / 16 % 16) :: hexDigitChar (b % 16) :: acc) []

/-- Python `bytes.hex()` on plain bytes: lowercase hex, no prefix. -/
def bytesToHex (bs : List Nat) : String :=
  String.mk (bytesToHexChars bs)

/-- `hexbytes.HexBytes.hex()`: lowercase hex with a leading `"0x"`.
`Web3.keccak` returns a `HexBytes`, so its `.hex()` carries the prefix. -/
def hexBytesHex (bs : List Nat) : String :=
  "0x" ++ bytesToHex bs

/-- ASCII bytes of a string (all strings hashed by the program are ASCII,
where UTF-8 and code points coincide); models `Web3.keccak(text=...)`
encoding its argument before hashing. -/
def strBytes (s : String) : List Nat :=
  s.data.map Char.toNat

/-- Python string slicing `s[:n]`: the first `n` characters. -/
def strTake (s : String) (n : Nat) : String :=
  String.mk (s.data.take n)

/-- `un_prefix_0x` from `configuration/types.py`:
`str.removeprefix` of the two characters `0x`. -/
def un_prefix_0x (s : String) : String :=
  if s.data.take 2 = ['0', 'x'] then String.mk (s.data.drop 2) else s

/-! ## ABI entries and signature derivation (`configuration/types.py`) -/

/-- One ABI input parameter: its `type` string and (for tuple types) its
`components` list, itself a list of parameters. -/
inductive AbiParam : Type where
  | mk : String → List AbiParam → AbiParam

/-- The `type` string of an ABI parameter. -/
def AbiParam.ty : AbiParam → String
  | AbiParam.mk t _ => t

/-- The `components` list of an ABI parameter. -/
def AbiParam.components : AbiParam → List AbiParam
  | AbiParam.mk _ cs => cs

/-- Comma-join of strings. The Python loops in `event_signature` and the
`",".join` in `Function.to_full_name` both emit a comma before every
element except the first, which is exactly this recursion. -/
def joinComma : List String → String
  | [] => ""
  | [s] => s
  | s :: t :: rest => s ++ "," ++ joinComma (t :: rest)

/-- The contribution of one input to the parameter string of
`event_signature`: a `tuple[]` or `tuple` input is expanded one level into
the parenthesized comma-join of its components' literal `type` strings;
any other input contributes its `type` string verbatim. -/
def renderInput (p : AbiParam) : String :=
  if p.ty = "tuple[]" then "(" ++ joinComma (p.components.map AbiParam.ty) ++ ")[]"
  else if p.ty = "tuple" then "(" ++ joinComma (p.components.map AbiParam.ty) ++ ")"
  else p.ty

/-- The `params` string accumulated by the loop in `event_signature`. -/
def eventParams (inputs : List AbiParam) : String :=
  joinComma (inputs.map renderInput)

/-- The text hashed by `event_signature`:
`event_abi["name"] + "(" + params + ")"`. -/
def event_signature_preimage (name : String) (inputs : List AbiParam) : String :=
  name ++ "(" ++ eventParams inputs ++ ")"

/-- `event_signature` from `configuration/types.py`: keccak the preimage,
render with `HexBytes.hex()` and strip the `0x` prefix. -/
def event_signature (name : String) (inputs : List AbiParam) : String :=
  un_prefix_0x (hexBytesHex (keccak256 (strBytes (event_signature_preimage name inputs))))

/-- `function_signature` from `configuration/types.py`:
`Web3.keccak(text=function_name).hex()[:8]`, where `.hex()` is the
`"0x"`-prefixed `HexBytes` rendering. -/
def function_signature (function_name : String) : String :=
  strTake (hexBytesHex (keccak256 (strBytes function_name))) 8

/-- `Function.to_full_name` from `configuration/types.py`:
`f"{name}({','.join(input types)})"`, no spaces. -/
def Function.to_full_name (name : String) (inputTypes : List String) : String :=
  name ++ "(" ++ joinComma inputTypes ++ ")"

mutual

/-- Modelled from the spec: the fully recursive canonical expansion of one
ABI parameter type ("the algorithm must recurse into tuple components that
are themselves tuples or tuple arrays", §4.1); this recursion is what the
chain's signature rules require and is absent from the source, whose
`event_signature` expands only one level. -/
def canonicalType : AbiParam → String
  | AbiParam.mk t comps =>
    if t = "tuple[]" then "(" ++ canonicalList comps ++ ")[]"
    else if t = "tuple" then "(" ++ canonicalList comps ++ ")"
    else t

/-- Modelled from the spec: comma-join of recursively canonicalized
components, in declaration order. -/
def canonicalList : List AbiParam → String
  | [] => ""
  | [p] => canonicalType p
  | p :: q :: rest => canonicalType p ++ "," ++ canonicalList (q :: rest)

end

/-- Modelled from the spec: the event signature preimage with full
recursive tuple expansion. -/
def canonicalEventPreimage (name : String) (inputs : List AbiParam) : String :=
  name ++ "(" ++ canonicalList inputs ++ ")"

/-! ## Address checksumming and registry resolution -/

/-- Numeric value of a hex digit character, `none` on anything else. -/
def hexVal? (c : Char) : Option Nat :=
  if '0' ≤ c ∧ c ≤ '9' then some (c.toNat - 48)
  else if 'a' ≤ c ∧ c ≤ 'f' then some (c.toNat - 87)
  else if 'A' ≤ c ∧ c ≤ 'F' then some (c.toNat - 55)
  else none

/-- Lowercase a hex digit character (only `A`–`F` change). -/
def toLowerHexChar (c : Char) : Char :=
  if 'A' ≤ c ∧ c ≤ 'F' then Char.ofNat (c.toNat + 32) else c

/-- Uppercase a hex digit character (only `a`–`f` change). -/
def toUpperHexChar (c : Char) : Char :=
  if 'a' ≤ c ∧ c ≤ 'f' then Char.ofNat (c.toNat - 32) else c

/-- EIP-55 checksum casing of 40 lowercase hex digits: digit `i` is
uppercased exactly when nibble `i` of the keccak-256 hash of the ASCII
digits is at least 8. -/
def checksumHex40 (hexChars : List Char) : List Char :=
  let h := bytesToHexChars (keccak256 (hexChars.map Char.toNat))
  (List.range hexChars.length).map fun i =>
    if 8 ≤ (hexVal? (h.getD i '0')).getD 0 then toUpperHexChar (hexChars.getD i ' ')
    else hexChars.getD i ' '

/-- `eth_utils.address.to_checksum_address` on a `0x`-prefixed 40-hex-digit
string: lowercase the digits, then apply EIP-55 checksum casing; validated
against the EIP-55 reference vectors. -/
def to_checksum_address (s : String) : String :=
  String.mk ('0' :: 'x' :: checksumHex40 ((s.data.drop 2).map toLowerHexChar))

/-- One resolved contract as built inside `Contracts.get_contracts`:
logical name, checksummed address, and the artifact path the ABI is loaded
from (the file read itself is I/O outside this embedding). -/
structure ResolvedContract where
  name : String
  address : String
  abi_file : String
deriving DecidableEq

/-- The fixed attribute list of the `Contracts` record, in declaration
order (`attr_names` in `get_contracts`). -/
def contractAttrNames : List String :=
  ["VoterRegistry", "FlareSystemsCalculator", "FlareSystemsManager", "Relay",
   "Submission", "FdcHub", "FastUpdater"]

/-- The `Contracts` record of `configuration/types.py`. -/
structure Contracts where
  VoterRegistry : ResolvedContract
  FlareSystemsCalculator : ResolvedContract
  FlareSystemsManager : ResolvedContract
  Relay : ResolvedContract
  Submission : ResolvedContract
  FdcHub : ResolvedContract
  FastUpdater : ResolvedContract
deriving DecidableEq

/-- The body of the `get_contracts` loop for one name: checksum whatever
address string the registry call returned and build the contract record;
there is no guard of any kind on the returned address. -/
def resolveContract (registry : String → String) (name : String) : ResolvedContract :=
  ⟨name, to_checksum_address (registry name), "configuration/artifacts/" ++ name ++ ".json"⟩

/-- `Contracts.get_contracts`: one registry read per attribute name, in
declaration order; the registry is abstracted as the address string its
`getContractAddressByName` call returns for each name. -/
def Contracts.get_contracts (registry : String → String) : Contracts :=
  ⟨resolveContract registry "VoterRegistry",
   resolveContract registry "FlareSystemsCalculator",
   resolveContract registry "FlareSystemsManager",
   resolveContract registry "Relay",
   resolveContract registry "Submission",
   resolveContract registry "FdcHub",
   resolveContract registry "FastUpdater"⟩

/-- The zero address, `0x` followed by 40 zero digits. -/
def ZERO_ADDRESS : String :=
  "0x0000000000000000000000000000000000000000"

/-- A mocked registry that maps `Relay` to the zero address and every
other name to an ordinary nonzero address. -/
def zeroRelayRegistry : String → String :=
  fun name => if name = "Relay" then ZERO_ADDRESS
    else "0x5aaeb6053f3e94c9b9a09f33669435e7ef1beaed"

/-! ## Protocol events (`observer/types.py`) -/

/-- The Python exception kinds the embedded observer code can raise:
`OverflowError` from `int.to_bytes` on an out-of-range value and
`ValueError` from `bytes.fromhex` on a malformed hex string. -/
inductive PyErr : Type where
  | overflowError
  | valueError
deriving DecidableEq

/-- Big-endian rendering of `n` into exactly `len` bytes (the value of
`n.to_bytes(len, "big")` when it does not raise). -/
def natToBytesBE (n len : Nat) : List Nat :=
  (List.range len).map fun i => n >>> (8 * (len - 1 - i)) % 256

/-- Python `n.to_bytes(len, "big")`: `OverflowError` when `n` does not fit
into `len` bytes. -/
def intToBytes (n len : Nat) : Except PyErr (List Nat) :=
  if n < 256 ^ len then Except.ok (natToBytesBE n len) else Except.error PyErr.overflowError

/-- Python whitespace as skipped by `bytes.fromhex`. -/
def isPySpace (c : Char) : Bool :=
  c = ' ' || c = '\t' || c = '\n' || c = '\r' || c = (Char.ofNat 11) || c = (Char.ofNat 12)

/-- Python `bytes.fromhex`: pairs of hex digits, with ASCII whitespace
ignored between byte pairs (but not inside a pair); `none` models the
`ValueError` it raises on any other input. -/
def bytesFromHex : List Char → Option (List Nat)
  | [] => some []
  | [c] => if isPySpace c then some [] else none
  | c :: d :: rest =>
    if isPySpace c then bytesFromHex (d :: rest)
    else
      match hexVal? c, hexVal? d with
      | some h, some l => (bytesFromHex rest).map fun bs => (16 * h + l) :: bs
      | _, _ => none

/-- `eth_account.messages.encode_defunct` followed by
`_hash_eip191_message`: keccak-256 of the EIP-191 version-0x45 envelope
`0x19 ++ "Ethereum Signed Message:\n" ++ decimal length ++ payload`. -/
def hashEip191Personal (payload : List Nat) : List Nat :=
  keccak256 (0x19 :: strBytes "Ethereum Signed Message:" ++ [0x0a] ++
    strBytes (toString payload.length) ++ payload)

/-- The `ProtocolMessageRelayed` record of `observer/types.py`; integer
fields are the (nonnegative) chain-decoded values, `merkle_root` is the
stored hex string. -/
structure ProtocolMessageRelayed where
  protocol_id : Nat
  voting_round_id : Nat
  is_secure_random : Bool
  merkle_root : String
  timestamp : Nat

/-- `ProtocolMessageRelayed.to_message`: build
`protocol_id.to_bytes(1) + voting_round_id.to_bytes(4) +
is_secure_random.to_bytes(1) + bytes.fromhex(merkle_root)` in that
evaluation order (so an integer overflow raises before a bad hex string
does), keccak the concatenation and return its EIP-191 personal-sign
digest. -/
def ProtocolMessageRelayed.to_message (m : ProtocolMessageRelayed) : Except PyErr (List Nat) :=
  match intToBytes m.protocol_id 1 with
  | Except.error e => Except.error e
  | Except.ok b1 =>
    match intToBytes m.voting_round_id 4 with
    | Except.error e => Except.error e
    | Except.ok b2 =>
      match intToBytes (if m.is_secure_random then 1 else 0) 1 with
      | Except.error e => Except.error e
      | Except.ok b3 =>
        match bytesFromHex m.merkle_root.data with
        | none => Except.error PyErr.valueError
        | some mr => Except.ok (hashEip191Personal (keccak256 (b1 ++ b2 ++ b3 ++ mr)))

/-- Modelled from the spec: the pre-hash layout of §4.5 — `protocolId` as
1 big-endian byte, `votingRoundId` as 4 big-endian bytes,
`isSecureRandom` as one byte that is 0 or 1, then the raw merkle-root
bytes. -/
def specRelayMessage (pid vr : Nat) (sec : Bool) (root : List Nat) : List Nat :=
  natToBytesBE pid 1 ++ natToBytesBE vr 4 ++ [if sec then 1 else 0] ++ root

/-- The raw `VoterRegistered` log args, exactly the keys
`VoterRegistered.from_dict` reads: address strings as supplied by the
provider and the two public-key parts as plain byte strings. -/
structure VoterRegisteredArgs where
  rewardEpochId : Nat
  voter : String
  signingPolicyAddress : String
  submitAddress : String
  submitSignaturesAddress : String
  publicKeyPart1 : List Nat
  publicKeyPart2 : List Nat
  registrationWeight : Nat

/-- The decoded `VoterRegistered` domain value. -/
structure VoterRegistered where
  reward_epoch_id : Nat
  voter : String
  signing_policy_address : String
  submit_address : String
  submit_signatures_address : String
  public_key : String
  registration_weight : Nat

/-- `VoterRegistered.from_dict`: every address field is passed through
verbatim; `public_key` is `publicKeyPart1.hex() + publicKeyPart2.hex()`
with the unprefixed `bytes.hex()` rendering. -/
def VoterRegistered.from_dict (d : VoterRegisteredArgs) : VoterRegistered :=
  ⟨d.rewardEpochId, d.voter, d.signingPolicyAddress, d.submitAddress,
   d.submitSignaturesAddress, bytesToHex d.publicKeyPart1 ++ bytesToHex d.publicKeyPart2,
   d.registrationWeight⟩

/-- The raw log fields `AttestationRequest.from_dict` reads: `logIndex`,
`blockNumber` and the `data` payload bytes from `args`. -/
structure AttestationEventData where
  logIndex : Nat
  blockNumber : Nat
  data : List Nat

/-- The decoded `AttestationRequest`; `voting_epoch_id` is the
caller-supplied voting epoch (the external epoch value is represented by
its numeric id). -/
structure AttestationRequest where
  log_index : Nat
  block : Nat
  voting_epoch_id : Nat
  data : List Nat

/-- The `attestation_type` accessor: the byte sequence `data[0:32]` handed
to the external `AttestationType` wrapper. -/
def AttestationRequest.attestation_type (a : AttestationRequest) : List Nat :=
  a.data.take 32

/-- The `source_id` accessor: the byte sequence `data[32:64]` handed to
the external `AttestationSource` wrapper. -/
def AttestationRequest.source_id (a : AttestationRequest) : List Nat :=
  (a.data.drop 32).take 32

/-- `AttestationRequest.from_dict`: stores the payload verbatim; the
source performs no length validation of any kind. -/
def AttestationRequest.from_dict (d : AttestationEventData) (votingEpoch : Nat) :
    AttestationRequest :=
  ⟨d.logIndex, d.blockNumber, votingEpoch, d.data⟩

/-- A decoded Python value inside a raw log `args` dict, as far as
`FastUpdateFeeds.from_dict` needs: an integer or a list of integers. -/
inductive PyValue : Type where
  | int (n : Nat)
  | intList (ns : List Int)
deriving DecidableEq

/-- The raw `EventData` fields `FastUpdateFeeds.from_dict` reads. -/
structure FUEventData where
  args : List (String × PyValue)
  address : String
  transactionHash : List Nat

/-- The decoded `FastUpdateFeeds` domain value. -/
structure FastUpdateFeeds where
  voting_round_id : Nat
  emitter_address : String
  transaction_hash : List Nat
  feeds : List Int
  decimals : List Int
deriving DecidableEq

/-- Dict lookup in the raw `args`: `d[k]`, `none` models `KeyError`. -/
def lookupArg (args : List (String × PyValue)) (k : String) : Option PyValue :=
  (args.find? fun kv => kv.1 = k).map fun kv => kv.2

/-- `FastUpdateFeeds.from_dict`: `voting_round_id` is read from the
`votingEpochId` key (not `votingRoundId`); a missing key or a
wrongly-shaped value raises, modelled as `none`. -/
def FastUpdateFeeds.from_dict (data : FUEventData) : Option FastUpdateFeeds :=
  match lookupArg data.args "votingEpochId", lookupArg data.args "feeds",
      lookupArg data.args "decimals" with
  | some (PyValue.int ve), some (PyValue.intList fs), some (PyValue.intList ds) =>
    some ⟨ve, data.address, data.transactionHash, fs, ds⟩
  | _, _, _ => none

/-- Character-level comma-join, the `List Char` image of `joinComma`;
used to reason about injectivity of the parameter join. -/
def jcc : List (List Char) → List Char
  | [] => []
  | [a] => a
  | a :: b :: rest => a ++ ',' :: jcc (b :: rest)

/-- What may follow one rendered parameter inside the comma-join built by
`event_signature`: nothing (after the last parameter) or a comma and the
rest of the join. -/
@[reducible] def SuffixOk (s : List Char) : Prop :=
  s = [] ∨ ∃ x, s = ',' :: x

/-- The three shapes `renderInput` produces for a well-formed ABI input:
an atom (a type string with no comma and no parenthesis), or a
parenthesized paren-free body, with or without the array suffix. -/
inductive ValidToken : List Char → Prop where
  | atom (a : List Char) : a ≠ [] → ',' ∉ a → '(' ∉ a → ')' ∉ a → ValidToken a
  | tup (w : List Char) : '(' ∉ w → ')' ∉ w → ValidToken ('(' :: w ++ [')'])
  | tupArr (w : List Char) : '(' ∉ w → ')' ∉ w → ValidToken ('(' :: w ++ [')', '[', ']'])

/-- A well-formed ABI type string: every Solidity type token found in a
valid ABI entry (`uint256`, `address`, `bytes32[4]`, and the words
`tuple` and `tuple[]` themselves) is nonempty and contains no comma and
no parenthesis. -/
@[reducible] def ValidComponent (c : AbiParam) : Prop :=
  AbiParam.ty c ≠ "" ∧ ',' ∉ (AbiParam.ty c).data ∧
    '(' ∉ (AbiParam.ty c).data ∧ ')' ∉ (AbiParam.ty c).data

/-- A well-formed ABI event input as far as `event_signature` reads it:
its own type string and the component type strings it renders (one level)
are well-formed Solidity type tokens. -/
@[reducible] def ValidAbiInput (p : AbiParam) : Prop :=
  ValidComponent p ∧ ∀ c ∈ p.components, ValidComponent c

/-! ## Helper lemmas -/

theorem string_data_inj : ∀ {s t : String}, s.data = t.data → s = t := by
  intro s t h
  cases s
  cases t
  exact congrArg String.mk h

theorem str_data_append (s t : String) : (s ++ t).data = s.data ++ t.data := by
  cases s
  cases t
  rfl

theorem strmk_append (a b : List Char) : String.mk a ++ String.mk b = String.mk (a ++ b) := rfl

theorem joinComma_data (l : List String) : (joinComma l).data = jcc (l.map String.data) := by
  induction l with
  | nil => rfl
  | cons s rest ih =>
    cases rest with
    | nil => rfl
    | cons t r =>
      show ((s ++ "," ++ joinComma (t :: r))).data = s.data ++ ',' :: jcc ((t :: r).map String.data)
      rw [str_data_append, str_data_append, ih]
      simp [List.append_assoc]

theorem sep_cancel (sep : Char) (a : List Char) : ∀ {b x y : List Char},
    sep ∉ a → sep ∉ b → a ++ sep :: x = b ++ sep :: y → a = b ∧ x = y := by
  induction a with
  | nil =>
    intro b x y _ hb h
    cases b with
    | nil => simpa using h
    | cons d b' =>
      simp only [List.nil_append, List.cons_append, List.cons.injEq] at h
      obtain ⟨h1, h2⟩ := h
      subst h1
      exact absurd (List.mem_cons_self _ _) hb
  | cons c a' ih =>
    intro b x y ha hb h
    cases b with
    | nil =>
      simp only [List.cons_append, List.nil_append, List.cons.injEq] at h
      obtain ⟨h1, h2⟩ := h
      subst h1
      exact absurd (List.mem_cons_self _ _) ha
    | cons d b' =>
      simp only [List.cons_append, List.cons.injEq] at h
      obtain ⟨h1, h2⟩ := h
      have ha' : sep ∉ a' := fun hm => ha (List.mem_cons_of_mem _ hm)
      have hb' : sep ∉ b' := fun hm => hb (List.mem_cons_of_mem _ hm)
      obtain ⟨e1, e2⟩ := ih ha' hb' h2
      exact ⟨by rw [h1, e1], e2⟩

theorem jcc_ne_nil (a : List Char) (rest : List (List Char)) (ha : a ≠ []) :
    jcc (a :: rest) ≠ [] := by
  cases rest with
  | nil => simpa [jcc] using ha
  | cons b r => simp [jcc]

theorem jcc_inj : ∀ (l₁ l₂ : List (List Char)),
    (∀ s ∈ l₁, ',' ∉ s ∧ s ≠ []) → (∀ s ∈ l₂, ',' ∉ s ∧ s ≠ []) →
    jcc l₁ = jcc l₂ → l₁ = l₂ := by
  intro l₁
  induction l₁ with
  | nil =>
    intro l₂ _ h₂ h
    cases l₂ with
    | nil => rfl
    | cons b r =>
      exact absurd h.symm (jcc_ne_nil b r (h₂ b (List.mem_cons_self _ _)).2)
  | cons a l₁' ih =>
    intro l₂ h₁ h₂ h
    cases l₂ with
    | nil =>
      exact absurd h (jcc_ne_nil a l₁' (h₁ a (List.mem_cons_self _ _)).2)
    | cons b l₂' =>
      cases l₁' with
      | nil =>
        cases l₂' with
        | nil => simpa [jcc] using h
        | cons c r =>
          -- h : a = b ++ ',' :: jcc (c :: r), yet a is comma-free
          have hcomma : ',' ∈ a := by
            rw [show jcc [a] = a from rfl] at h
            rw [h]
            exact List.mem_append_right _ (List.mem_cons_self _ _)
          exact absurd hcomma (h₁ a (List.mem_cons_self _ _)).1
      | cons a2 l₁'' =>
        cases l₂' with
        | nil =>
          have hcomma : ',' ∈ b := by
            rw [show jcc [b] = b from rfl] at h
            rw [← h]
            exact List.mem_append_right _ (List.mem_cons_self _ _)
          exact absurd hcomma (h₂ b (List.mem_cons_self _ _)).1
        | cons b2 l₂'' =>
          have h' : a ++ ',' :: jcc (a2 :: l₁'') = b ++ ',' :: jcc (b2 :: l₂'') := h
          obtain ⟨e1, e2⟩ := sep_cancel ',' a
            (h₁ a (List.mem_cons_self _ _)).1 (h₂ b (List.mem_cons_self _ _)).1 h'
          have etail := ih (b2 :: l₂'')
            (fun s hs => h₁ s (List.mem_cons_of_mem _ hs))
            (fun s hs => h₂ s (List.mem_cons_of_mem _ hs)) e2
          rw [e1, etail]

theorem token_ne_nil {a : List Char} (h : ValidToken a) : a ≠ [] := by
  cases h with
  | atom a h1 h2 h3 h4 => exact h1
  | tup w h1 h2 => simp
  | tupArr w h1 h2 => simp

theorem token_cancel {a b : List Char} (ha : ValidToken a) (hb : ValidToken b) :
    ∀ {s1 s2 : List Char}, SuffixOk s1 → SuffixOk s2 →
    a ++ s1 = b ++ s2 → a = b ∧ s1 = s2 := by
  intro s1 s2 hs1 hs2 h
  cases ha with
  | atom a hne hcm hlp hrp =>
    cases hb with
    | atom b hne' hcm' hlp' hrp' =>
      rcases hs1 with rfl | ⟨x, rfl⟩
      · rcases hs2 with rfl | ⟨y, rfl⟩
        · simpa using h
        · rw [List.append_nil] at h
          rw [h] at hcm
          exact absurd (List.mem_append_right _ (List.mem_cons_self _ _)) hcm
      · rcases hs2 with rfl | ⟨y, rfl⟩
        · rw [List.append_nil] at h
          rw [← h] at hcm'
          exact absurd (List.mem_append_right _ (List.mem_cons_self _ _)) hcm'
        · obtain ⟨e1, e2⟩ := sep_cancel ',' a hcm hcm' h
          exact ⟨e1, by rw [e2]⟩
    | tup w hl hr =>
      cases a with
      | nil => exact absurd rfl hne
      | cons a0 a' =>
        simp only [List.cons_append, List.append_assoc, List.nil_append] at h
        rw [List.cons.injEq] at h
        obtain ⟨h1, -⟩ := h
        subst h1
        exact absurd (List.mem_cons_self _ _) hlp
    | tupArr w hl hr =>
      cases a with
      | nil => exact absurd rfl hne
      | cons a0 a' =>
        simp only [List.cons_append, List.append_assoc, List.nil_append] at h
        rw [List.cons.injEq] at h
        obtain ⟨h1, -⟩ := h
        subst h1
        exact absurd (List.mem_cons_self _ _) hlp
  | tup w hl hr =>
    cases hb with
    | atom b hne' hcm' hlp' hrp' =>
      cases b with
      | nil => exact absurd rfl hne'
      | cons b0 b' =>
        simp only [List.cons_append, List.append_assoc, List.nil_append] at h
        rw [List.cons.injEq] at h
        obtain ⟨h1, -⟩ := h
        subst h1
        exact absurd (List.mem_cons_self _ _) hlp'
    | tup w' hl' hr' =>
      simp only [List.cons_append, List.append_assoc, List.nil_append] at h
      rw [List.cons.injEq] at h
      obtain ⟨-, h⟩ := h
      obtain ⟨e1, e2⟩ := sep_cancel ')' w hr hr' h
      exact ⟨by rw [e1], e2⟩
    | tupArr w' hl' hr' =>
      simp only [List.cons_append, List.append_assoc, List.nil_append] at h
      rw [List.cons.injEq] at h
      obtain ⟨-, h⟩ := h
      obtain ⟨e1, e2⟩ := sep_cancel ')' w hr hr' h
      rcases hs1 with rfl | ⟨x, rfl⟩
      · exact absurd e2 (by simp)
      · have hhd := congrArg (fun l => List.headD l ' ') e2
        simp at hhd
  | tupArr w hl hr =>
    cases hb with
    | atom b hne' hcm' hlp' hrp' =>
      cases b with
      | nil => exact absurd rfl hne'
      | cons b0 b' =>
        simp only [List.cons_append, List.append_assoc, List.nil_append] at h
        rw [List.cons.injEq] at h
        obtain ⟨h1, -⟩ := h
        subst h1
        exact absurd (List.mem_cons_self _ _) hlp'
    | tup w' hl' hr' =>
      simp only [List.cons_append, List.append_assoc, List.nil_append] at h
      rw [List.cons.injEq] at h
      obtain ⟨-, h⟩ := h
      obtain ⟨e1, e2⟩ := sep_cancel ')' w hr hr' h
      rcases hs2 with rfl | ⟨y, rfl⟩
      · exact absurd e2.symm (by simp)
      · have hhd := congrArg (fun l => List.headD l ' ') e2.symm
        simp at hhd
    | tupArr w' hl' hr' =>
      simp only [List.cons_append, List.append_assoc, List.nil_append] at h
      rw [List.cons.injEq] at h
      obtain ⟨-, h⟩ := h
      obtain ⟨e1, e2⟩ := sep_cancel ')' w hr hr' h
      rw [List.cons.injEq, List.cons.injEq] at e2
      exact ⟨by rw [e1], e2.2.2⟩

theorem jcc_inj_tokens : ∀ (l₁ l₂ : List (List Char)),
    (∀ s ∈ l₁, ValidToken s) → (∀ s ∈ l₂, ValidToken s) →
    jcc l₁ = jcc l₂ → l₁ = l₂ := by
  intro l₁
  induction l₁ with
  | nil =>
    intro l₂ _ h₂ h
    cases l₂ with
    | nil => rfl
    | cons b r =>
      exact absurd h.symm (jcc_ne_nil b r (token_ne_nil (h₂ b (List.mem_cons_self _ _))))
  | cons a l₁' ih =>
    intro l₂ h₁ h₂ h
    cases l₂ with
    | nil =>
      exact absurd h (jcc_ne_nil a l₁' (token_ne_nil (h₁ a (List.mem_cons_self _ _))))
    | cons b l₂' =>
      have ha := h₁ a (List.mem_cons_self _ _)
      have hb := h₂ b (List.mem_cons_self _ _)
      cases l₁' with
      | nil =>
        cases l₂' with
        | nil => simpa [jcc] using h
        | cons c r =>
          have h' : a ++ [] = b ++ ',' :: jcc (c :: r) := by simpa [jcc] using h
          obtain ⟨-, e2⟩ := token_cancel ha hb (Or.inl rfl) (Or.inr ⟨_, rfl⟩) h'
          exact absurd e2.symm (by simp)
      | cons a2 l₁'' =>
        cases l₂' with
        | nil =>
          have h' : a ++ ',' :: jcc (a2 :: l₁'') = b ++ [] := by simpa [jcc] using h
          obtain ⟨-, e2⟩ := token_cancel ha hb (Or.inr ⟨_, rfl⟩) (Or.inl rfl) h'
          exact absurd e2 (by simp)
        | cons b2 l₂'' =>
          have h' : a ++ ',' :: jcc (a2 :: l₁'') = b ++ ',' :: jcc (b2 :: l₂'') := h
          obtain ⟨e1, e2⟩ := token_cancel ha hb (Or.inr ⟨_, rfl⟩) (Or.inr ⟨_, rfl⟩) h'
          rw [List.cons.injEq] at e2
          have etail := ih (b2 :: l₂'')
            (fun s hs => h₁ s (List.mem_cons_of_mem _ hs))
            (fun s hs => h₂ s (List.mem_cons_of_mem _ hs)) e2.2
          rw [e1, etail]

theorem mem_jcc {c : Char} : ∀ {l : List (List Char)}, c ∈ jcc l →
    c = ',' ∨ ∃ s ∈ l, c ∈ s := by
  intro l
  induction l with
  | nil =>
    intro h
    exact absurd h (List.not_mem_nil c)
  | cons a r ih =>
    cases r with
    | nil =>
      intro h
      exact Or.inr ⟨a, List.mem_cons_self _ _, h⟩
    | cons b r' =>
      intro h
      rw [show jcc (a :: b :: r') = a ++ ',' :: jcc (b :: r') from rfl] at h
      rcases List.mem_append.mp h with h | h
      · exact Or.inr ⟨a, List.mem_cons_self _ _, h⟩
      · rcases List.mem_cons.mp h with h | h
        · exact Or.inl h
        · rcases ih h with h | ⟨s, hs, hcs⟩
          · exact Or.inl h
          · exact Or.inr ⟨s, List.mem_cons_of_mem _ hs, hcs⟩

theorem joinComma_inj_commaFree (m₁ m₂ : List String)
    (h₁ : ∀ s ∈ m₁, ',' ∉ s.data ∧ s ≠ "") (h₂ : ∀ s ∈ m₂, ',' ∉ s.data ∧ s ≠ "")
    (h : joinComma m₁ = joinComma m₂) : m₁ = m₂ := by
  have hd := congrArg String.data h
  rw [joinComma_data, joinComma_data] at hd
  have hcond : ∀ (m : List String), (∀ s ∈ m, ',' ∉ s.data ∧ s ≠ "") →
      ∀ t ∈ m.map String.data, ',' ∉ t ∧ t ≠ [] := by
    intro m hm t ht
    rw [List.mem_map] at ht
    obtain ⟨s, hs, rfl⟩ := ht
    exact ⟨(hm s hs).1, fun hnil => (hm s hs).2 (string_data_inj hnil)⟩
  have hmaps := jcc_inj _ _ (hcond m₁ h₁) (hcond m₂ h₂) hd
  exact List.map_injective_iff.mpr (fun a b hab => string_data_inj hab) hmaps

theorem renderInput_token (p : AbiParam) (hp : ValidAbiInput p) :
    ValidToken (renderInput p).data := by
  have hw : ∀ c, c ∈ (joinComma (p.components.map AbiParam.ty)).data →
      c = ',' ∨ ∃ s ∈ p.components, c ∈ (AbiParam.ty s).data := by
    intro c hc
    rw [joinComma_data] at hc
    rcases mem_jcc hc with hc | ⟨s, hs, hcs⟩
    · exact Or.inl hc
    · rw [List.mem_map] at hs
      obtain ⟨t, ht, rfl⟩ := hs
      rw [List.mem_map] at ht
      obtain ⟨q, hq, rfl⟩ := ht
      exact Or.inr ⟨q, hq, hcs⟩
  have hwl : '(' ∉ (joinComma (p.components.map AbiParam.ty)).data := by
    intro hc
    rcases hw _ hc with hc | ⟨s, hs, hcs⟩
    · exact absurd hc (by decide)
    · exact (hp.2 s hs).2.2.1 hcs
  have hwr : ')' ∉ (joinComma (p.components.map AbiParam.ty)).data := by
    intro hc
    rcases hw _ hc with hc | ⟨s, hs, hcs⟩
    · exact absurd hc (by decide)
    · exact (hp.2 s hs).2.2.2 hcs
  unfold renderInput
  by_cases e1 : p.ty = "tuple[]"
  · rw [if_pos e1]
    have hshape : ("(" ++ joinComma (p.components.map AbiParam.ty) ++ ")[]").data =
        '(' :: ((joinComma (p.components.map AbiParam.ty)).data ++ [')', '[', ']']) := by
      rw [str_data_append, str_data_append]
      simp
    rw [hshape]
    exact ValidToken.tupArr _ hwl hwr
  · rw [if_neg e1]
    by_cases e2 : p.ty = "tuple"
    · rw [if_pos e2]
      have hshape : ("(" ++ joinComma (p.components.map AbiParam.ty) ++ ")").data =
          '(' :: ((joinComma (p.components.map AbiParam.ty)).data ++ [')']) := by
        rw [str_data_append, str_data_append]
        simp
      rw [hshape]
      exact ValidToken.tup _ hwl hwr
    · rw [if_neg e2]
      exact ValidToken.atom _
        (fun hnil => hp.1.1 (string_data_inj hnil))
        hp.1.2.1 hp.1.2.2.1 hp.1.2.2.2

theorem preimage_eq_params (name : String) (l₁ l₂ : List AbiParam)
    (h : event_signature_preimage name l₁ = event_signature_preimage name l₂) :
    eventParams l₁ = eventParams l₂ := by
  have h' : name ++ "(" ++ eventParams l₁ ++ ")" = name ++ "(" ++ eventParams l₂ ++ ")" := h
  have hd := congrArg String.data h'
  simp only [str_data_append] at hd
  exact string_data_inj (List.append_cancel_left (List.append_cancel_right hd))

theorem preimage_inj (name : String) (l₁ l₂ : List AbiParam)
    (h₁ : ∀ p ∈ l₁, ValidAbiInput p) (h₂ : ∀ p ∈ l₂, ValidAbiInput p)
    (h : event_signature_preimage name l₁ = event_signature_preimage name l₂) :
    l₁.map renderInput = l₂.map renderInput := by
  have hp := congrArg String.data (preimage_eq_params name l₁ l₂ h)
  rw [show eventParams l₁ = joinComma (l₁.map renderInput) from rfl,
    show eventParams l₂ = joinComma (l₂.map renderInput) from rfl,
    joinComma_data, joinComma_data] at hp
  have hcond : ∀ (l : List AbiParam), (∀ p ∈ l, ValidAbiInput p) →
      ∀ s ∈ (l.map renderInput).map String.data, ValidToken s := by
    intro l hl s hs
    rw [List.mem_map] at hs
    obtain ⟨t, ht, rfl⟩ := hs
    rw [List.mem_map] at ht
    obtain ⟨q, hq, rfl⟩ := ht
    exact renderInput_token q (hl q hq)
  have hmaps := jcc_inj_tokens _ _ (hcond l₁ h₁) (hcond l₂ h₂) hp
  exact List.map_injective_iff.mpr (fun a b hab => string_data_inj hab) hmaps

/-- C8: canonicalization is order-sensitive and processes inputs in
declaration order. For every valid ABI event entry — every parameter's
type string and component type strings being Solidity type tokens:
nonempty, free of commas and parentheses — (1) any reordering
(permutation) of the parameters that changes the rendered type sequence
changes the canonical signature preimage, entries containing tuple and
tuple-array parameters included; and (2) any reordering of the components
inside one `tuple` or `tuple[]` parameter that changes its component type
sequence also changes the canonical signature preimage. -/
theorem c8_reordering_changes_signature (name : String) :
    (∀ l₁ l₂ : List AbiParam,
      (∀ p ∈ l₁, ValidAbiInput p) → l₁.Perm l₂ →
      l₁.map renderInput ≠ l₂.map renderInput →
      event_signature_preimage name l₁ ≠ event_signature_preimage name l₂) ∧
    (∀ (before after cs₁ cs₂ : List AbiParam) (tty : String),
      (∀ p ∈ before ++ after, ValidAbiInput p) →
      (∀ c ∈ cs₁, ValidComponent c) →
      tty = "tuple" ∨ tty = "tuple[]" →
      cs₁.Perm cs₂ →
      cs₁.map AbiParam.ty ≠ cs₂.map AbiParam.ty →
      event_signature_preimage name (before ++ AbiParam.mk tty cs₁ :: after) ≠
        event_signature_preimage name (before ++ AbiParam.mk tty cs₂ :: after)) := by
  constructor
  · intro l₁ l₂ hv hperm hne h
    exact hne (preimage_inj name l₁ l₂ hv (fun p hp => hv p (hperm.mem_iff.mpr hp)) h)
  · intro before after cs₁ cs₂ tty hv hc htty hperm hne h
    have httyv : ∀ cs : List AbiParam, ValidComponent (AbiParam.mk tty cs) := by
      intro cs
      rcases htty with rfl | rfl
      · exact ⟨(by decide : ("tuple" : String) ≠ ""),
          (by decide : ',' ∉ ("tuple" : String).data),
          (by decide : '(' ∉ ("tuple" : String).data),
          (by decide : ')' ∉ ("tuple" : String).data)⟩
      · exact ⟨(by decide : ("tuple[]" : String) ≠ ""),
          (by decide : ',' ∉ ("tuple[]" : String).data),
          (by decide : '(' ∉ ("tuple[]" : String).data),
          (by decide : ')' ∉ ("tuple[]" : String).data)⟩
    have hc₂ : ∀ c ∈ cs₂, ValidComponent c := fun c hcm => hc c (hperm.mem_iff.mpr hcm)
    have hP₁ : ValidAbiInput (AbiParam.mk tty cs₁) := ⟨httyv cs₁, hc⟩
    have hP₂ : ValidAbiInput (AbiParam.mk tty cs₂) := ⟨httyv cs₂, hc₂⟩
    have hlists : ∀ (P : AbiParam), ValidAbiInput P →
        ∀ p ∈ before ++ P :: after, ValidAbiInput p := by
      intro P hP p hp
      rcases List.mem_append.mp hp with hp | hp
      · exact hv p (List.mem_append_left _ hp)
      · rcases List.mem_cons.mp hp with rfl | hp
        · exact hP
        · exact hv p (List.mem_append_right _ hp)
    have hmaps := preimage_inj name _ _ (hlists _ hP₁) (hlists _ hP₂) h
    rw [List.map_append, List.map_append, List.map_cons, List.map_cons] at hmaps
    have hmid := List.append_cancel_left hmaps
    rw [List.cons.injEq] at hmid
    obtain ⟨hrend, -⟩ := hmid
    apply hne
    have hcomp : ∀ (cs : List AbiParam), (∀ c ∈ cs, ValidComponent c) →
        ∀ s ∈ cs.map AbiParam.ty, ',' ∉ s.data ∧ s ≠ "" := by
      intro cs hcs s hs
      rw [List.mem_map] at hs
      obtain ⟨c, hcm, rfl⟩ := hs
      exact ⟨(hcs c hcm).2.1, (hcs c hcm).1⟩
    apply joinComma_inj_commaFree _ _ (hcomp cs₁ hc) (hcomp cs₂ hc₂)
    have peel : ∀ (cl : String),
        "(" ++ joinComma (cs₁.map AbiParam.ty) ++ cl =
          "(" ++ joinComma (cs₂.map AbiParam.ty) ++ cl →
        joinComma (cs₁.map AbiParam.ty) = joinComma (cs₂.map AbiParam.ty) := by
      intro cl hcl
      have hd := congrArg String.data hcl
      simp only [str_data_append] at hd
      exact string_data_inj (List.append_cancel_left (List.append_cancel_right hd))
    rcases htty with rfl | rfl
    · refine peel ")" ?_
      have e1 : renderInput (AbiParam.mk "tuple" cs₁) =
          "(" ++ joinComma (cs₁.map AbiParam.ty) ++ ")" := by
        simp [renderInput, AbiParam.ty, AbiParam.components]
      have e2 : renderInput (AbiParam.mk "tuple" cs₂) =
          "(" ++ joinComma (cs₂.map AbiParam.ty) ++ ")" := by
        simp [renderInput, AbiParam.ty, AbiParam.components]
      rw [e1, e2] at hrend
      exact hrend
    · refine peel ")[]" ?_
      have e1 : renderInput (AbiParam.mk "tuple[]" cs₁) =
          "(" ++ joinComma (cs₁.map AbiParam.ty) ++ ")[]" := by
        simp [renderInput, AbiParam.ty, AbiParam.components]
      have e2 : renderInput (AbiParam.mk "tuple[]" cs₂) =
          "(" ++ joinComma (cs₂.map AbiParam.ty) ++ ")[]" := by
        simp [renderInput, AbiParam.ty, AbiParam.components]
      rw [e1, e2] at hrend
      exact hrend

set_option maxRecDepth 40000 in
/-- C8 witness: both halves of the theorem applied to concrete entries
containing a multi-component tuple parameter. Swapping the
`(uint256,bool)` tuple parameter with the `address` parameter changes the
canonical preimage and — checked concretely — the keccak-derived event
signature; swapping the two components inside the tuple also changes the
canonical preimage. -/
theorem c8_reordering_changes_signature_witness :
    (∀ p ∈ [AbiParam.mk "tuple" [AbiParam.mk "uint256" [], AbiParam.mk "bool" []],
        AbiParam.mk "address" []], ValidAbiInput p) ∧
    ([AbiParam.mk "tuple" [AbiParam.mk "uint256" [], AbiParam.mk "bool" []],
        AbiParam.mk "address" []].map renderInput ≠
      [AbiParam.mk "address" [],
        AbiParam.mk "tuple" [AbiParam.mk "uint256" [], AbiParam.mk "bool" []]].map renderInput) ∧
    ([AbiParam.mk "uint256" [], AbiParam.mk "bool" []].map AbiParam.ty ≠
      [AbiParam.mk "bool" [], AbiParam.mk "uint256" []].map AbiParam.ty) ∧
    (event_signature_preimage "E"
        [AbiParam.mk "tuple" [AbiParam.mk "uint256" [], AbiParam.mk "bool" []],
          AbiParam.mk "address" []] ≠
      event_signature_preimage "E"
        [AbiParam.mk "address" [],
          AbiParam.mk "tuple" [AbiParam.mk "uint256" [], AbiParam.mk "bool" []]]) ∧
    (event_signature_preimage "E"
        [AbiParam.mk "tuple" [AbiParam.mk "uint256" [], AbiParam.mk "bool" []],
          AbiParam.mk "address" []] ≠
      event_signature_preimage "E"
        [AbiParam.mk "tuple" [AbiParam.mk "bool" [], AbiParam.mk "uint256" []],
          AbiParam.mk "address" []]) ∧
    (event_signature "E"
        [AbiParam.mk "tuple" [AbiParam.mk "uint256" [], AbiParam.mk "bool" []],
          AbiParam.mk "address" []] ≠
      event_signature "E"
        [AbiParam.mk "address" [],
          AbiParam.mk "tuple" [AbiParam.mk "uint256" [], AbiParam.mk "bool" []]]) :=
  ⟨by decide, by decide, by decide,
    (c8_reordering_changes_signature "E").1 _ _ (by decide)
      (List.Perm.swap _ _ _) (by decide),
    (c8_reordering_changes_signature "E").2 [] [AbiParam.mk "address" []]
      [AbiParam.mk "uint256" [], AbiParam.mk "bool" []]
      [AbiParam.mk "bool" [], AbiParam.mk "uint256" []] "tuple"
      (by decide) (by decide) (Or.inl rfl) (List.Perm.swap _ _ _) (by decide),
    by decide⟩

/-- C1: `event_signature` does not recurse into nested tuples. For an
event `E` with a single `tuple` input whose only component is itself a
`tuple` with one `uint256` component, the source canonicalizes the
preimage to `E((tuple))` — the inner component contributes its literal
type string — whereas the recursive canonical form required by the
chain's signature rules is `E(((uint256)))`, a different string. -/
theorem c1_nested_tuple_not_recursed :
    event_signature_preimage "E"
      [AbiParam.mk "tuple" [AbiParam.mk "tuple" [AbiParam.mk "uint256" []]]] =
      "E((tuple))" ∧
    canonicalEventPreimage "E"
      [AbiParam.mk "tuple" [AbiParam.mk "tuple" [AbiParam.mk "uint256" []]]] =
      "E(((uint256)))" ∧
    ("E((tuple))" : String) ≠ "E(((uint256)))" := by
  refine ⟨by decide, ?_, by decide⟩
  simp only [canonicalEventPreimage, canonicalList, canonicalType]
  decide

set_option maxRecDepth 40000 in
/-- Evaluation of keccak-256 on the full name `transfer(address,uint256)`;
the standard Ethereum selector test vector. -/
theorem keccak_transfer_eval :
    bytesToHex (keccak256 (strBytes "transfer(address,uint256)")) =
      "a9059cbb2ab09eb219583f4a59a5d0623ade346d962bcd4e46b11da047c9049b" := by
  decide

/-- C2: the derived function selector is not the first 4 bytes (8 hex
characters) of the keccak hash of the full name. Because `HexBytes.hex()`
is `"0x"`-prefixed, `function_signature` returns the two prefix
characters plus only six hex digits (3 bytes of hash), which differs from
the claimed unprefixed 8-hex-digit selector. -/
theorem c2_function_selector_prefixed :
    Function.to_full_name "transfer" ["address", "uint256"] = "transfer(address,uint256)" ∧
    function_signature "transfer(address,uint256)" = "0xa9059c" ∧
    strTake (bytesToHex (keccak256 (strBytes "transfer(address,uint256)"))) 8 = "a9059cbb" ∧
    function_signature "transfer(address,uint256)" ≠
      strTake (bytesToHex (keccak256 (strBytes "transfer(address,uint256)"))) 8 := by
  refine ⟨by decide, ?_, ?_, ?_⟩
  · simp only [function_signature, hexBytesHex, keccak_transfer_eval]
    decide
  · rw [keccak_transfer_eval]
    decide
  · simp only [function_signature, hexBytesHex, keccak_transfer_eval]
    decide

/-- C3 counterexample: a 10-byte payload decodes without any error into an
`AttestationRequest` whose `attestation_type` bytes are the truncated
10-byte slice (not 32 bytes) and whose `source_id` bytes are empty; no
`TruncatedPayload` failure exists in the source. -/
theorem c3_short_payload_decodes :
    AttestationRequest.from_dict (AttestationEventData.mk 3 100 [0, 1, 2, 3, 4, 5, 6, 7, 8, 9]) 5 =
      AttestationRequest.mk 3 100 5 [0, 1, 2, 3, 4, 5, 6, 7, 8, 9] ∧
    (AttestationRequest.from_dict
      (AttestationEventData.mk 3 100 [0, 1, 2, 3, 4, 5, 6, 7, 8, 9]) 5).attestation_type =
      [0, 1, 2, 3, 4, 5, 6, 7, 8, 9] ∧
    (AttestationRequest.from_dict
      (AttestationEventData.mk 3 100 [0, 1, 2, 3, 4, 5, 6, 7, 8, 9]) 5).attestation_type.length ≠ 32 ∧
    (AttestationRequest.from_dict
      (AttestationEventData.mk 3 100 [0, 1, 2, 3, 4, 5, 6, 7, 8, 9]) 5).source_id = [] :=
  ⟨rfl, by decide, by decide, by decide⟩

/-- C3 (amended): decoding always succeeds and stores the payload
verbatim; for payloads of at least 64 bytes the accessors are exactly
bytes 0–32 and 32–64 of `data` (32 bytes each). Shorter payloads are not
rejected; the accessors then hand truncated slices to the external
wrappers (see the counterexample). -/
theorem c3_accessor_slices (d : AttestationEventData) (ve : Nat) (h : 64 ≤ d.data.length) :
    (AttestationRequest.from_dict d ve).data = d.data ∧
    (AttestationRequest.from_dict d ve).attestation_type.length = 32 ∧
    (AttestationRequest.from_dict d ve).source_id.length = 32 ∧
    (∀ i, i < 32 →
      (AttestationRequest.from_dict d ve).attestation_type.getD i 0 = d.data.getD i 0) ∧
    (∀ i, i < 32 →
      (AttestationRequest.from_dict d ve).source_id.getD i 0 = d.data.getD (32 + i) 0) := by
  refine ⟨rfl, ?_, ?_, ?_, ?_⟩
  · show (d.data.take 32).length = 32
    rw [List.length_take]
    omega
  · show ((d.data.drop 32).take 32).length = 32
    rw [List.length_take, List.length_drop]
    omega
  · intro i hi
    show (d.data.take 32).getD i 0 = d.data.getD i 0
    rw [List.getD_eq_getElem?_getD, List.getD_eq_getElem?_getD, List.getElem?_take, if_pos hi]
  · intro i hi
    show ((d.data.drop 32).take 32).getD i 0 = d.data.getD (32 + i) 0
    rw [List.getD_eq_getElem?_getD, List.getD_eq_getElem?_getD, List.getElem?_take,
      if_pos hi, List.getElem?_drop]

/-- C3 witness: the amended theorem applied to a concrete 64-byte payload. -/
theorem c3_accessor_slices_witness :
    64 ≤ (AttestationEventData.mk 1 2 (List.range 64)).data.length ∧
    ((AttestationRequest.from_dict (AttestationEventData.mk 1 2 (List.range 64)) 7).data =
        (AttestationEventData.mk 1 2 (List.range 64)).data ∧
      (AttestationRequest.from_dict
        (AttestationEventData.mk 1 2 (List.range 64)) 7).attestation_type.length = 32 ∧
      (AttestationRequest.from_dict
        (AttestationEventData.mk 1 2 (List.range 64)) 7).source_id.length = 32 ∧
      (∀ i, i < 32 →
        (AttestationRequest.from_dict
          (AttestationEventData.mk 1 2 (List.range 64)) 7).attestation_type.getD i 0 =
          (AttestationEventData.mk 1 2 (List.range 64)).data.getD i 0) ∧
      (∀ i, i < 32 →
        (AttestationRequest.from_dict
          (AttestationEventData.mk 1 2 (List.range 64)) 7).source_id.getD i 0 =
          (AttestationEventData.mk 1 2 (List.range 64)).data.getD (32 + i) 0)) :=
  ⟨by decide, c3_accessor_slices (AttestationEventData.mk 1 2 (List.range 64)) 7 (by decide)⟩

set_option maxRecDepth 40000 in
/-- C4 counterexample: with a mocked registry that maps `Relay` to the
zero address, `get_contracts` still publishes a complete `Contracts`
value containing the zero address; no `ContractNotFound` failure exists
in the source. -/
theorem c4_zero_address_published :
    (Contracts.get_contracts zeroRelayRegistry).Relay.address = ZERO_ADDRESS ∧
    (Contracts.get_contracts zeroRelayRegistry).Relay.name = "Relay" ∧
    zeroRelayRegistry "Relay" = ZERO_ADDRESS :=
  ⟨by decide, rfl, by decide⟩

/-- C4 (amended): resolution is total — for every registry answer
(zero address included) a full `Contracts` value is produced, each field
holding the checksummed form of whatever address string the registry
returned for its name, with no zero-address guard. -/
theorem c4_resolution_total (registry : String → String) :
    (Contracts.get_contracts registry).VoterRegistry.address =
      to_checksum_address (registry "VoterRegistry") ∧
    (Contracts.get_contracts registry).FlareSystemsCalculator.address =
      to_checksum_address (registry "FlareSystemsCalculator") ∧
    (Contracts.get_contracts registry).FlareSystemsManager.address =
      to_checksum_address (registry "FlareSystemsManager") ∧
    (Contracts.get_contracts registry).Relay.address =
      to_checksum_address (registry "Relay") ∧
    (Contracts.get_contracts registry).Submission.address =
      to_checksum_address (registry "Submission") ∧
    (Contracts.get_contracts registry).FdcHub.address =
      to_checksum_address (registry "FdcHub") ∧
    (Contracts.get_contracts registry).FastUpdater.address =
      to_checksum_address (registry "FastUpdater") :=
  ⟨rfl, rfl, rfl, rfl, rfl, rfl, rfl⟩

set_option maxRecDepth 40000 in
/-- The EIP-55 reference vector: checksumming the all-lowercase address
yields the mixed-case form. -/
theorem checksum_reference_vector :
    to_checksum_address "0x5aaeb6053f3e94c9b9a09f33669435e7ef1beaed" =
      "0x5aAeb6053F3E94C9b9A09f33669435E7Ef1BeAed" := by
  decide

/-- C7 counterexample: decoding a raw `VoterRegistered` log whose address
args are all-lowercase yields a value whose `voter` field is the verbatim
lowercase input, which is not in checksummed form — `from_dict` performs
no normalization. -/
theorem c7_lowercase_not_checksummed :
    (VoterRegistered.from_dict (VoterRegisteredArgs.mk 1
        "0x5aaeb6053f3e94c9b9a09f33669435e7ef1beaed"
        "0x5aaeb6053f3e94c9b9a09f33669435e7ef1beaed"
        "0x5aaeb6053f3e94c9b9a09f33669435e7ef1beaed"
        "0x5aaeb6053f3e94c9b9a09f33669435e7ef1beaed" [] [] 0)).voter =
      "0x5aaeb6053f3e94c9b9a09f33669435e7ef1beaed" ∧
    (VoterRegistered.from_dict (VoterRegisteredArgs.mk 1
        "0x5aaeb6053f3e94c9b9a09f33669435e7ef1beaed"
        "0x5aaeb6053f3e94c9b9a09f33669435e7ef1beaed"
        "0x5aaeb6053f3e94c9b9a09f33669435e7ef1beaed"
        "0x5aaeb6053f3e94c9b9a09f33669435e7ef1beaed" [] [] 0)).voter ≠
      to_checksum_address
        ((VoterRegistered.from_dict (VoterRegisteredArgs.mk 1
          "0x5aaeb6053f3e94c9b9a09f33669435e7ef1beaed"
          "0x5aaeb6053f3e94c9b9a09f33669435e7ef1beaed"
          "0x5aaeb6053f3e94c9b9a09f33669435e7ef1beaed"
          "0x5aaeb6053f3e94c9b9a09f33669435e7ef1beaed" [] [] 0)).voter) := by
  refine ⟨rfl, ?_⟩
  show "0x5aaeb6053f3e94c9b9a09f33669435e7ef1beaed" ≠
    to_checksum_address "0x5aaeb6053f3e94c9b9a09f33669435e7ef1beaed"
  rw [checksum_reference_vector]
  decide

/-- C7 (amended): all four address fields of the decoded
`VoterRegistered` value are the raw input strings passed through verbatim,
whatever their casing; the decoder applies no checksum normalization. -/
theorem c7_addresses_passed_through (d : VoterRegisteredArgs) :
    (VoterRegistered.from_dict d).voter = d.voter ∧
    (VoterRegistered.from_dict d).signing_policy_address = d.signingPolicyAddress ∧
    (VoterRegistered.from_dict d).submit_address = d.submitAddress ∧
    (VoterRegistered.from_dict d).submit_signatures_address = d.submitSignaturesAddress :=
  ⟨rfl, rfl, rfl, rfl⟩

theorem bytesToHexChars_append (a b : List Nat) :
    bytesToHexChars (a ++ b) = bytesToHexChars a ++ bytesToHexChars b := by
  induction a with
  | nil => rfl
  | cons x xs ih =>
    show hexDigitChar (x / 16 % 16) :: hexDigitChar (x % 16) :: bytesToHexChars (xs ++ b) = _
    rw [ih]
    rfl

/-- C9: the decoded `public_key` is the unprefixed hex rendering of
`publicKeyPart1` immediately followed by that of `publicKeyPart2` — equal
to the hex rendering of the concatenated byte parts, in that order. -/
theorem c9_public_key_hex_concat (d : VoterRegisteredArgs) :
    (VoterRegistered.from_dict d).public_key =
      bytesToHex d.publicKeyPart1 ++ bytesToHex d.publicKeyPart2 ∧
    (VoterRegistered.from_dict d).public_key =
      bytesToHex (d.publicKeyPart1 ++ d.publicKeyPart2) := by
  refine ⟨rfl, ?_⟩
  show String.mk (bytesToHexChars d.publicKeyPart1) ++ String.mk (bytesToHexChars d.publicKeyPart2) =
    String.mk (bytesToHexChars (d.publicKeyPart1 ++ d.publicKeyPart2))
  rw [strmk_append, bytesToHexChars_append]

/-- C10: `FastUpdateFeeds.from_dict` reads the voting round from the
`votingEpochId` args key: when that key is absent decoding fails (whatever
other keys are present), and when decoding succeeds the resulting
`voting_round_id` is exactly the integer stored under `votingEpochId`. -/
theorem c10_voting_epoch_id_key (data : FUEventData) :
    (lookupArg data.args "votingEpochId" = none → FastUpdateFeeds.from_dict data = none) ∧
    (∀ r, FastUpdateFeeds.from_dict data = some r →
      lookupArg data.args "votingEpochId" = some (PyValue.int r.voting_round_id)) := by
  constructor
  · intro h
    simp [FastUpdateFeeds.from_dict, h]
  · intro r hr
    unfold FastUpdateFeeds.from_dict at hr
    split at hr
    · next ve fs ds h1 h2 h3 =>
      obtain rfl : FastUpdateFeeds.mk ve data.address data.transactionHash fs ds = r :=
        Option.some.inj hr
      exact h1
    · exact absurd hr (by simp)

/-- C10 witness: a log whose args hold `votingRoundId` but not
`votingEpochId` fails to decode; one with `votingEpochId` decodes to that
value. -/
theorem c10_voting_epoch_id_key_witness :
    lookupArg [("votingRoundId", PyValue.int 5)] "votingEpochId" = none ∧
    FastUpdateFeeds.from_dict
      (FUEventData.mk [("votingRoundId", PyValue.int 5)] "0xabc" []) = none ∧
    FastUpdateFeeds.from_dict
      (FUEventData.mk [("votingEpochId", PyValue.int 9), ("feeds", PyValue.intList [1, 2]),
        ("decimals", PyValue.intList [0])] "0xabc" [7]) =
      some (FastUpdateFeeds.mk 9 "0xabc" [7] [1, 2] [0]) ∧
    lookupArg [("votingEpochId", PyValue.int 9), ("feeds", PyValue.intList [1, 2]),
        ("decimals", PyValue.intList [0])] "votingEpochId" = some (PyValue.int 9) :=
  ⟨by decide,
    (c10_voting_epoch_id_key (FUEventData.mk [("votingRoundId", PyValue.int 5)] "0xabc" [])).1
      (by decide),
    by decide,
    (c10_voting_epoch_id_key (FUEventData.mk [("votingEpochId", PyValue.int 9),
        ("feeds", PyValue.intList [1, 2]), ("decimals", PyValue.intList [0])] "0xabc" [7])).2
      (FastUpdateFeeds.mk 9 "0xabc" [7] [1, 2] [0]) (by decide)⟩

theorem to_message_eval (m : ProtocolMessageRelayed)
    (h1 : m.protocol_id < 256) (h2 : m.voting_round_id < 2 ^ 32) :
    m.to_message =
      match bytesFromHex m.merkle_root.data with
      | none => Except.error PyErr.valueError
      | some mr => Except.ok (hashEip191Personal (keccak256
          (natToBytesBE m.protocol_id 1 ++ natToBytesBE m.voting_round_id 4 ++
            [if m.is_secure_random then 1 else 0] ++ mr))) := by
  have e1 : intToBytes m.protocol_id 1 = Except.ok (natToBytesBE m.protocol_id 1) := by
    have hp : m.protocol_id < 256 ^ 1 := by simpa using h1
    unfold intToBytes
    rw [if_pos hp]
  have e2 : intToBytes m.voting_round_id 4 = Except.ok (natToBytesBE m.voting_round_id 4) := by
    have hp : m.voting_round_id < 256 ^ 4 := by
      have e : (256 : Nat) ^ 4 = 2 ^ 32 := by norm_num
      rw [e]
      exact h2
    unfold intToBytes
    rw [if_pos hp]
  have e3 : intToBytes (if m.is_secure_random then 1 else 0) 1 =
      Except.ok [if m.is_secure_random then 1 else 0] := by
    cases m.is_secure_random <;> rfl
  unfold ProtocolMessageRelayed.to_message
  rw [e1, e2, e3]

/-- C5 (amended): provided `protocol_id` fits in one byte and
`voting_round_id` in four (otherwise `to_bytes` raises `OverflowError`
first — see the counterexample), `to_message` on a merkle root that
parses as exactly 32 hex-encoded bytes returns the EIP-191 personal-sign
digest of the keccak-256 hash of the 38-byte layout of §4.5. -/
theorem c5_message_layout (m : ProtocolMessageRelayed) (mr : List Nat)
    (h1 : m.protocol_id < 256) (h2 : m.voting_round_id < 2 ^ 32)
    (h3 : bytesFromHex m.merkle_root.data = some mr) (h4 : mr.length = 32) :
    m.to_message = Except.ok (hashEip191Personal (keccak256
      (specRelayMessage m.protocol_id m.voting_round_id m.is_secure_random mr))) ∧
    (specRelayMessage m.protocol_id m.voting_round_id m.is_secure_random mr).length = 38 := by
  constructor
  · rw [to_message_eval m h1 h2, h3]
    rfl
  · simp [specRelayMessage, natToBytesBE, h4]

/-- C5 witness: the amended theorem at the golden literal input
`protocolId = 200`, `votingRoundId = 123456`, `isSecureRandom = true`,
merkle root of 32 zero bytes. -/
theorem c5_message_layout_witness :
    (200 : Nat) < 256 ∧ (123456 : Nat) < 2 ^ 32 ∧
    bytesFromHex ("0000000000000000000000000000000000000000000000000000000000000000" :
      String).data = some (List.replicate 32 0) ∧
    (List.replicate 32 0 : List Nat).length = 32 ∧
    (ProtocolMessageRelayed.mk 200 123456 true
      "0000000000000000000000000000000000000000000000000000000000000000" 999).to_message =
      Except.ok (hashEip191Personal (keccak256
        (specRelayMessage 200 123456 true (List.replicate 32 0)))) :=
  ⟨by decide, by decide, by decide, by decide,
    (c5_message_layout (ProtocolMessageRelayed.mk 200 123456 true
        "0000000000000000000000000000000000000000000000000000000000000000" 999)
      (List.replicate 32 0) (by decide) (by decide) (by decide) (by decide)).1⟩

/-- C5 counterexample: a `ProtocolMessageRelayed` whose merkle root is a
valid 32-byte hex string but whose `protocol_id` is 300 does not return
any digest — `int.to_bytes` raises `OverflowError` first. -/
theorem c5_overflow_preempts :
    bytesFromHex ("0000000000000000000000000000000000000000000000000000000000000000" :
      String).data = some (List.replicate 32 0) ∧
    (List.replicate 32 0 : List Nat).length = 32 ∧
    (ProtocolMessageRelayed.mk 300 0 false
      "0000000000000000000000000000000000000000000000000000000000000000" 0).to_message =
      Except.error PyErr.overflowError :=
  ⟨by decide, by decide, rfl⟩

/-- C6 (amended): with `protocol_id` and `voting_round_id` in byte range,
`to_message` fails exactly when the merkle root string does not parse as
hex byte pairs, and then with `ValueError` (the `InvalidMerkleRoot`
situation) and no other error kind; any string that parses — of whatever
byte length, 32 or not — succeeds. -/
theorem c6_error_iff_unparseable_hex (m : ProtocolMessageRelayed)
    (h1 : m.protocol_id < 256) (h2 : m.voting_round_id < 2 ^ 32) :
    (bytesFromHex m.merkle_root.data = none → m.to_message = Except.error PyErr.valueError) ∧
    (∀ mr, bytesFromHex m.merkle_root.data = some mr →
      m.to_message = Except.ok (hashEip191Personal (keccak256
        (natToBytesBE m.protocol_id 1 ++ natToBytesBE m.voting_round_id 4 ++
          [if m.is_secure_random then 1 else 0] ++ mr)))) := by
  constructor
  · intro h
    rw [to_message_eval m h1 h2, h]
  · intro mr h
    rw [to_message_eval m h1 h2, h]

/-- C6 witness: the amended theorem at a concrete unparseable merkle root
`zz`: the only failure is `ValueError`. -/
theorem c6_error_iff_unparseable_hex_witness :
    (1 : Nat) < 256 ∧ (2 : Nat) < 2 ^ 32 ∧
    bytesFromHex ("zz" : String).data = none ∧
    (ProtocolMessageRelayed.mk 1 2 false "zz" 0).to_message =
      Except.error PyErr.valueError :=
  ⟨by decide, by decide, by decide,
    (c6_error_iff_unparseable_hex (ProtocolMessageRelayed.mk 1 2 false "zz" 0)
      (by decide) (by decide)).1 (by decide)⟩

/-- C6 counterexample: the empty string is not valid hex of exactly 32
bytes, yet `to_message` does not fail at all — it happily hashes a 6-byte
message; the 32-byte length is never enforced. -/
theorem c6_wrong_length_hex_accepted :
    bytesFromHex ("" : String).data = some [] ∧
    ([] : List Nat).length ≠ 32 ∧
    (ProtocolMessageRelayed.mk 1 2 true "" 0).to_message =
      Except.ok (hashEip191Personal (keccak256
        (natToBytesBE 1 1 ++ natToBytesBE 2 4 ++ [1] ++ []))) := by
  refine ⟨by decide, by decide, ?_⟩
  rw [to_message_eval (ProtocolMessageRelayed.mk 1 2 true "" 0) (by decide) (by decide)]
  rfl
